import Mathlib

/-!
# Verification of `driver.py` (jdidion/driver)

A shallow embedding of the case-segmentation, execution-strategy and
test-harness core of `driver.py`, together with proofs settling the
specification's claims about it.

Machine model conventions:
* Python strings are Lean `String`s; `str.strip()` is modelled over the
  character list (whitespace on both ends removed).
* Python 2 integer division on non-negative operands is `Nat` division.
* A raised Python exception is an `Except.error` carrying a `PyExc` value;
  exception classes used in `except` clauses are `ExcClass` values with an
  `instanceOf` check (every class is a subclass of `Exception`).
* The generator `test_case_iter` is modelled as a total function returning
  the list of yielded cases, the final value of its `ctr` counter and a
  terminal status (`SegTerm`) telling how the iteration ended.
-/

set_option autoImplicit false

universe u v w

/-- Python exception values relevant to `driver.py`: `assert` failures
(`AssertionError` with a message), undefined-name references (`NameError`),
missing-attribute access (`AttributeError`), `int()` parse failures
(`ValueError`), and exceptions raised by user-supplied pipeline stages,
identified by a numeric tag. -/
inductive PyExc where
  | assertionError (msg : String)
  | nameError (nm : String)
  | attributeError (nm : String)
  | valueError (msg : String)
  | userExc (tag : Nat)
deriving DecidableEq, Repr

/-- Python exception classes usable in an `except` clause. `exceptionCls` is
the base class `Exception`, which every exception here is an instance of.
In `driver.py` the segmentation count errors are plain `assert` statements,
so the spec's `SegmentationCountError` is `AssertionError` in the code. -/
inductive ExcClass where
  | assertionErrorCls
  | nameErrorCls
  | attributeErrorCls
  | valueErrorCls
  | userCls (tag : Nat)
  | exceptionCls
deriving DecidableEq, Repr

/-- Python `isinstance(e, cls)` for the modelled exception hierarchy. -/
def instanceOf : PyExc → ExcClass → Bool
  | _, ExcClass.exceptionCls => true
  | PyExc.assertionError _, ExcClass.assertionErrorCls => true
  | PyExc.nameError _, ExcClass.nameErrorCls => true
  | PyExc.attributeError _, ExcClass.attributeErrorCls => true
  | PyExc.valueError _, ExcClass.valueErrorCls => true
  | PyExc.userExc t, ExcClass.userCls u => t == u
  | _, _ => false

/-- Python `str.strip()`: remove whitespace from both ends of the string.
(Modelled for the ASCII whitespace characters, which covers the inputs
`driver.py` deals with.) -/
def pyStrip (s : String) : String :=
  String.mk (((s.data.dropWhile Char.isWhitespace).reverse.dropWhile
    Char.isWhitespace).reverse)

/-- Digit-sequence accumulator for `pyInt`. Returns `none` when a
non-digit character occurs. -/
def digitsToNat (acc : Nat) : List Char → Option Nat
  | [] => some acc
  | c :: cs =>
    if c.isDigit then digitsToNat (acc * 10 + (c.toNat - '0'.toNat)) cs
    else none

/-- Python `int(s)` on a string: strip surrounding whitespace, allow an
optional sign, then require a non-empty digit run. `none` models the
`ValueError` raised on malformed input. -/
def pyInt (s : String) : Option Int :=
  match (pyStrip s).data with
  | [] => none
  | '-' :: cs =>
    if cs = [] then none else (digitsToNat 0 cs).map (fun n => -(n : Int))
  | '+' :: cs =>
    if cs = [] then none else (digitsToNat 0 cs).map (fun n => (n : Int))
  | cs => (digitsToNat 0 cs).map (fun n => (n : Int))

/-- Accumulator loop splitting a character list at newline characters,
keeping an empty final piece (Python `str.split` with separator a
newline). -/
def splitNl (cur : List Char) : List Char → List String
  | [] => [String.mk cur.reverse]
  | c :: rest =>
    if c = '\n' then String.mk cur.reverse :: splitNl [] rest
    else splitNl (c :: cur) rest

/-- Accumulator loop for Python `str.splitlines()` on newline-separated
text: like `splitNl` but with no empty piece after a trailing newline and
`[]` for the empty string. -/
def pySplitAux (cur : List Char) : List Char → List String
  | [] => if cur = [] then [] else [String.mk cur.reverse]
  | c :: rest =>
    if c = '\n' then String.mk cur.reverse :: pySplitAux [] rest
    else pySplitAux (c :: cur) rest

/-- Python `str.splitlines()` for newline-separated text (the only line
terminator occurring in the fixtures of `driver.py`). -/
def pySplitlines (s : String) : List String :=
  pySplitAux [] s.data

/-- A line consisting only of space/tab characters (the lines that
`textwrap.dedent` normalises to empty and ignores for the margin). -/
def wsOnly (l : String) : Bool :=
  l.data.all (fun c => c == ' ' || c == '\t')

/-- Longest common starting run of two character lists (used for the
common indentation margin of `textwrap.dedent`). -/
def sharedStart : List Char → List Char → List Char
  | a :: as, b :: bs => if a = b then a :: sharedStart as bs else []
  | _, _ => []

/-- Python `textwrap.dedent`: normalise whitespace-only lines to empty,
compute the longest common space/tab margin of the remaining lines, and
strip it from every line that carries it. -/
def dedent (text : String) : String :=
  let lines := (splitNl [] text.data).map (fun l => if wsOnly l then "" else l)
  let indents := (lines.filter (fun l => !(wsOnly l))).map
    (fun l => l.data.takeWhile (fun c => c == ' ' || c == '\t'))
  let margin := match indents with
    | [] => ([] : List Char)
    | i :: is => is.foldl sharedStart i
  String.intercalate "\n" (lines.map (fun l =>
    if margin.isPrefixOf l.data then String.mk (l.data.drop margin.length)
    else l))

/-- One unit of work yielded by `test_case_iter`: a single stripped line
when `lines_per_case == 1`, else the ordered list of the group's stripped
lines. -/
inductive Case where
  | line (s : String)
  | group (ls : List String)
deriving DecidableEq, Repr

/-- How a run of the `test_case_iter` generator ended: normally at a blank
line, normally by exhausting the line sequence, or by one of the two
count-check `assert` failures. -/
inductive SegTerm where
  | doneBlank
  | exhausted
  | tooFew
  | tooMany
deriving DecidableEq, Repr

/-- The loop of `test_case_iter` (src/driver.py lines 71-94). Arguments
mirror the Python state: the declared `expected` count, `lines_per_case`
(`m`), the remaining lines, the `ctr` counter of accepted data lines, and
the in-progress group `next` (`none` models Python `None`; the update
`buf.getD [] ++ [pyStrip line]` is `next.append(line)` / `next = [line]`,
which agree on the list contents). Returns the yielded cases, the final
`ctr` and the terminal status. A non-empty line is truthy in Python, so
the blank-terminator test is `line = ""`. -/
def segLoop (expected : Int) (m : Nat) :
    List String → Nat → Option (List String) → List Case × Nat × SegTerm
  | [], ctr, _ => ([], ctr, SegTerm.exhausted)
  | line :: rest, ctr, buf =>
    if line = "" then
      if 0 ≤ expected ∧ ((ctr / m : Nat) : Int) ≠ expected then
        ([], ctr, SegTerm.tooFew)
      else ([], ctr, SegTerm.doneBlank)
    else
      if 0 ≤ expected ∧ ¬ ((ctr / m : Nat) : Int) < expected then
        ([], ctr, SegTerm.tooMany)
      else if m = 1 then
        (Case.line (pyStrip line) :: (segLoop expected m rest (ctr + 1) none).1,
          (segLoop expected m rest (ctr + 1) none).2)
      else if (ctr + 1) % m = 0 then
        (Case.group (buf.getD [] ++ [pyStrip line]) ::
            (segLoop expected m rest (ctr + 1) none).1,
          (segLoop expected m rest (ctr + 1) none).2)
      else
        segLoop expected m rest (ctr + 1) (some (buf.getD [] ++ [pyStrip line]))

/-- `test_case_iter(seq, lines_per_case)` (src/driver.py lines 59-94).
The `lines_per_case >= 1` assert; `int(seq.next())` on the first line
(raising `ValueError` on malformed input, and ending the generator
silently when the sequence is empty, as `StopIteration` inside a Python 2
generator does); then the segmentation loop. -/
def test_case_iter (lines : List String) (m : Nat) :
    Except PyExc (List Case × Nat × SegTerm) :=
  if m < 1 then Except.error (PyExc.assertionError "lines_per_case must be >= 1")
  else
    match lines with
    | [] => Except.ok ([], 0, SegTerm.exhausted)
    | first :: rest =>
      match pyInt first with
      | none => Except.error (PyExc.valueError "invalid literal for int()")
      | some expected => Except.ok (segLoop expected m rest 0 none)

/-- The data lines of an input tail: the lines before the first blank
line (all of them when no blank line occurs). -/
def dataLines (lines : List String) : List String :=
  lines.takeWhile (fun l => !(l == ""))

/-- Greedy grouping of a list into consecutive chunks of exactly `m`
elements, dropping a final short group; `buf` is the partially filled
current group. Mirrors the grouping discipline of `segLoop`. -/
def chunksGo {α : Type u} (m : Nat) (buf : List α) : List α → List (List α)
  | [] => []
  | x :: xs =>
    if buf.length + 1 = m then (buf ++ [x]) :: chunksGo m [] xs
    else chunksGo m (buf ++ [x]) xs

/-- The cases that a terminator-reaching run of the segmenter emits from
stripped data lines `ls`: the lines themselves for `m = 1`, else the full
groups of `m` consecutive lines. -/
def segEmit (m : Nat) (ls : List String) : List Case :=
  if m = 1 then ls.map Case.line
  else (chunksGo m [] ls).map Case.group

/-- The user-supplied capability pair: `parse_input(case_num, input_str)`
and `solve(case_num, case)`. The equivalence claim assumes both are
deterministic, so they are pure functions here. -/
structure Pipeline (α : Type u) (β : Type v) (γ : Type w) where
  parse : Nat → α → β
  solve : Nat → β → γ

namespace Main

/-- `Main.execute(job)` (src lines 226-228): unpack the
`(case_num, input_str)` pair and run parse-then-solve. -/
def execute {α : Type u} {β : Type v} {γ : Type w}
    (p : Pipeline α β γ) (job : Nat × α) : γ :=
  p.solve job.1 (p.parse job.1 job.2)

/-- `Main.execute_serially(jobs)` (src lines 207-208): the list
comprehension `[self.execute(job) for job in jobs]`. -/
def execute_serially {α : Type u} {β : Type v} {γ : Type w}
    (p : Pipeline α β γ) (jobs : List (Nat × α)) : List γ :=
  jobs.map (execute p)

end Main

/-- Splitting of the job list into the consecutive chunks a
`multiprocessing.Pool.map` call hands to its workers; `buf` is the current
partially built chunk, and a final short chunk is kept. -/
def chunkGo {α : Type u} (c : Nat) (buf : List α) : List α → List (List α)
  | [] => if buf.isEmpty then [] else [buf]
  | x :: xs =>
    if buf.length + 1 = c then (buf ++ [x]) :: chunkGo c [] xs
    else chunkGo c (buf ++ [x]) xs

namespace Main

/-- `Main.execute_threaded(jobs)` (src lines 210-224), modelling
`pool.map(self.execute, jobs)` as an ordered parallel map: the jobs are
split into chunks of `chunkSize`; the workers of the pool (whose size
`min(self.threads, cpu_count())` bounds concurrency but not the result)
finish the chunks in the nondeterministic completion order `order`, a
permutation of the chunk indices; each finished chunk is recorded keyed by
its index, and `Pool.map` reassembles the results in original index order
regardless of completion order. -/
def execute_threaded {α : Type u} {β : Type v} {γ : Type w}
    (p : Pipeline α β γ) (threads : Nat) (chunkSize : Nat)
    (order : List Nat) (jobs : List (Nat × α)) : List γ :=
  let chunks := chunkGo chunkSize [] jobs
  let collected := order.map (fun i => (i, (chunks.getD i []).map (execute p)))
  ((List.range chunks.length).map
    (fun i => ((collected.lookup i).getD []))).flatten

end Main

/-- The harness's per-case executor: `self.driver.execute` with a
user-supplied fallible `parse_input`/`solve` pair, taking the case number
and the Case and either returning a result or raising. -/
def HarnessExec (ρ : Type u) : Type u := Nat → Case → Except PyExc ρ

/-- Running the serial strategy over the already-yielded cases in order,
numbering them from 1 (`enumerate(cases, 1)`); the first raising case
aborts the rest. -/
def runCases {ρ : Type u} (ex : HarnessExec ρ) :
    Nat → List Case → Except PyExc (List ρ)
  | _, [] => Except.ok []
  | n, c :: cs =>
    match ex n c with
    | Except.error e => Except.error e
    | Except.ok r =>
      match runCases ex (n + 1) cs with
      | Except.error e => Except.error e
      | Except.ok rs => Except.ok (r :: rs)

/-- The exception the segmenter's terminal status raises, if any: the two
count-check `assert` failures. -/
def termExc : SegTerm → Option PyExc
  | SegTerm.tooMany => some (PyExc.assertionError "Too many inputs")
  | SegTerm.tooFew => some (PyExc.assertionError "Too few inputs")
  | SegTerm.doneBlank => none
  | SegTerm.exhausted => none

namespace Main

/-- Modelled from the spec: `execute_all`, which `DriverTestCase._run`
calls (src lines 155 and 160) but which no class of the source defines;
spec §4.5 step 2 runs the serial Execution Strategy over the enumerated
case stream inside the harness. Because the case stream is lazy, every
case yielded before a segmentation `assert` failure is executed first;
that interleaving is reflected by running the yielded cases and only then
surfacing the terminal segmentation exception. -/
def execute_all {ρ : Type u} (ex : HarnessExec ρ)
    (seg : Except PyExc (List Case × Nat × SegTerm)) : Except PyExc (List ρ) :=
  match seg with
  | Except.error e => Except.error e
  | Except.ok (cs, _, t) =>
    match runCases ex 1 cs with
    | Except.error e => Except.error e
    | Except.ok rs =>
      match termExc t with
      | some e => Except.error e
      | none => Except.ok rs

end Main

/-- `TestData` (src lines 116-132): name, declared case count, raw input
block, and exactly one of an expected output block (`output_str`) or an
expected failure class (`error_class`). The record carries the fields a
successfully constructed fixture would hold. -/
structure TestData where
  test_name : String
  num_cases : Nat
  input_str : String
  output_str : Option String
  error_class : Option ExcClass
deriving DecidableEq, Repr

/-- `TestData.__init__` (src lines 121-129) as the source writes it: after
`self.input_str = dedent(input_str)`, the string branch executes
`self.output_str = dedent(output_str)` and the other branch
`self.error_class = error_class` — both right-hand names are undefined in
that scope (the parameter is named `expected`), so construction raises
`NameError` on every input. -/
def TestData.init (test_name : String) (num_cases : Nat) (input_str : String)
    (expected : Sum String ExcClass) : Except PyExc TestData :=
  match expected with
  | Sum.inl _ => Except.error (PyExc.nameError "output_str")
  | Sum.inr _ => Except.error (PyExc.nameError "error_class")

/-- `TestData.iter_cases` (src lines 131-132):
`test_case_iter(iter(self.input_str.splitlines()), lines_per_case)`, with
the constructor's `dedent` applied to the stored input block. -/
def TestData.iter_cases (data : TestData) (m : Nat) :
    Except PyExc (List Case × Nat × SegTerm) :=
  test_case_iter (pySplitlines (dedent data.input_str)) m

/-- `Main.print_result` (src lines 259-260):
`"Case #%i: %s\n" % (case_num, str(result))` with the result already
rendered to a string. -/
def print_result (case_num : Nat) (rendered : String) : String :=
  "Case #" ++ toString case_num ++ ": " ++ rendered ++ "\n"

/-- The output accumulated into the `StringIO` sink by the loop
`for i, r in enumerate(results, 1): self.driver.print_result(i, r, output)`
(src lines 166-167). -/
def renderFrom {ρ : Type u} (render : ρ → String) :
    Nat → List ρ → String
  | _, [] => ""
  | n, r :: rs => print_result n (render r) ++ renderFrom render (n + 1) rs

namespace DriverTestCase

/-- `DriverTestCase._run` (src lines 149-170) for a well-formed fixture:
with an `error_class`, run the pipeline inside `try`; on success raise
`AssertionError("Expected execution failure")` still inside the `try`; the
`except data.error_class` clause catches whatever instance of that class
reaches it, and anything else propagates as a test failure. Without an
`error_class`, compare the result count with `num_cases` and the rendered
output with `output_str` (an unset `output_str` slot would raise
`AttributeError`). `Except.ok ()` is a passing test; `Except.error e` is
the exception that makes the fixture's test fail. -/
def _run {ρ : Type u} (m : Nat) (ex : HarnessExec ρ) (render : ρ → String)
    (data : TestData) : Except PyExc Unit :=
  match data.error_class with
  | some cls =>
    match Main.execute_all ex (data.iter_cases m) with
    | Except.ok _ =>
      if instanceOf (PyExc.assertionError "Expected execution failure") cls then
        Except.ok ()
      else Except.error (PyExc.assertionError "Expected execution failure")
    | Except.error e =>
      if instanceOf e cls then Except.ok () else Except.error e
  | none =>
    match Main.execute_all ex (data.iter_cases m) with
    | Except.error e => Except.error e
    | Except.ok results =>
      if results.length ≠ data.num_cases then
        Except.error (PyExc.assertionError "Incorrect number of results")
      else
        match data.output_str with
        | none => Except.error (PyExc.attributeError "output_str")
        | some out =>
          if renderFrom render 1 results = out then Except.ok ()
          else Except.error (PyExc.assertionError "Incorrect output")

end DriverTestCase

/-- The identity pipeline used by the round-trip fixture: the default
`parse_input` returns the input string and `solve` returns its case
unchanged. -/
def idExec : HarnessExec Case := fun _ c => Except.ok c

/-- Python `str()` of a harness result that is a Case: the string itself
for a single line, and the `['a', 'b']` rendering for a list of lines. -/
def caseStr : Case → String
  | Case.line s => s
  | Case.group ls =>
    "[" ++ String.intercalate ", "
      (ls.map (fun s => "\x27" ++ s ++ "\x27")) ++ "]"

/-! ## Arithmetic helpers for the grouping counter -/

theorem succ_mod_eq_zero {m ctr : Nat} (hm : 1 ≤ m) (h : (ctr + 1) % m = 0) :
    ctr % m = m - 1 ∧ (ctr + 1) / m = ctr / m + 1 := by
  have hm0 : 0 < m := hm
  have hdvd : m ∣ ctr + 1 := Nat.dvd_of_mod_eq_zero h
  constructor
  · rcases eq_or_lt_of_le hm with hm1 | hm2
    · simp [← hm1, Nat.mod_one]
    · have hmod : (ctr + 1) % m = (ctr % m + 1) % m := by
        conv_lhs => rw [Nat.add_mod, Nat.mod_eq_of_lt hm2]
      have hr : ctr % m < m := Nat.mod_lt _ hm0
      rcases Nat.lt_or_ge (ctr % m + 1) m with hlt | hge
      · rw [hmod, Nat.mod_eq_of_lt hlt] at h
        omega
      · omega
  · rw [Nat.succ_div, if_pos hdvd]

theorem succ_mod_ne_zero {m ctr : Nat} (hm : 1 ≤ m) (h : (ctr + 1) % m ≠ 0) :
    (ctr + 1) % m = ctr % m + 1 ∧ (ctr + 1) / m = ctr / m := by
  have hm0 : 0 < m := hm
  have hdvd : ¬ m ∣ ctr + 1 := by
    rw [Nat.dvd_iff_mod_eq_zero]; exact h
  constructor
  · rcases eq_or_lt_of_le hm with hm1 | hm2
    · exfalso; exact h (by simp [← hm1, Nat.mod_one])
    · have hmod : (ctr + 1) % m = (ctr % m + 1) % m := by
        conv_lhs => rw [Nat.add_mod, Nat.mod_eq_of_lt hm2]
      have hr : ctr % m < m := Nat.mod_lt _ hm0
      rcases Nat.lt_or_ge (ctr % m + 1) m with hlt | hge
      · rw [hmod, Nat.mod_eq_of_lt hlt]
      · have heq : ctr % m + 1 = m := by omega
        rw [hmod, heq, Nat.mod_self] at h
        exact absurd rfl h
  · rw [Nat.succ_div, if_neg hdvd, Nat.add_zero]

/-! ## Unfolding and structural lemmas for the segmenter loop -/

theorem segLoop_nil (e : Int) (m : Nat) (ctr : Nat) (buf : Option (List String)) :
    segLoop e m [] ctr buf = ([], ctr, SegTerm.exhausted) := rfl

theorem segLoop_cons (e : Int) (m : Nat) (line : String) (rest : List String)
    (ctr : Nat) (buf : Option (List String)) :
    segLoop e m (line :: rest) ctr buf =
      if line = "" then
        if 0 ≤ e ∧ ((ctr / m : Nat) : Int) ≠ e then ([], ctr, SegTerm.tooFew)
        else ([], ctr, SegTerm.doneBlank)
      else
        if 0 ≤ e ∧ ¬ ((ctr / m : Nat) : Int) < e then ([], ctr, SegTerm.tooMany)
        else if m = 1 then
          (Case.line (pyStrip line) :: (segLoop e m rest (ctr + 1) none).1,
            (segLoop e m rest (ctr + 1) none).2)
        else if (ctr + 1) % m = 0 then
          (Case.group (buf.getD [] ++ [pyStrip line]) ::
              (segLoop e m rest (ctr + 1) none).1,
            (segLoop e m rest (ctr + 1) none).2)
        else
          segLoop e m rest (ctr + 1) (some (buf.getD [] ++ [pyStrip line])) := rfl

/-- The number of yielded cases equals the complete-case count reached by
the final counter, and the counter never decreases. -/
theorem segLoop_len_div (e : Int) (m : Nat) (hm : 1 ≤ m) :
    ∀ (lines : List String) (ctr : Nat) (buf : Option (List String)),
      (segLoop e m lines ctr buf).1.length + ctr / m
          = (segLoop e m lines ctr buf).2.1 / m
        ∧ ctr ≤ (segLoop e m lines ctr buf).2.1 := by
  intro lines
  induction lines with
  | nil => intro ctr buf; simp [segLoop_nil]
  | cons line rest ih =>
    intro ctr buf
    rw [segLoop_cons]
    split_ifs with hblank hfew hmany hm1 hmod
    · simp
    · simp
    · simp
    · subst hm1
      have h := ih (ctr + 1) none
      simp only [List.length_cons, Nat.div_one] at h ⊢
      omega
    · have h := ih (ctr + 1) none
      have hd := succ_mod_eq_zero hm hmod
      simp only [List.length_cons] at h ⊢
      omega
    · have h := ih (ctr + 1) (some (buf.getD [] ++ [pyStrip line]))
      have hd := succ_mod_ne_zero hm hmod
      omega

/-- With a negative declared count the loop never ends in a count error. -/
theorem segLoop_term_neg (e : Int) (m : Nat) (he : e < 0) :
    ∀ (lines : List String) (ctr : Nat) (buf : Option (List String)),
      (segLoop e m lines ctr buf).2.2 = SegTerm.doneBlank
        ∨ (segLoop e m lines ctr buf).2.2 = SegTerm.exhausted := by
  intro lines
  induction lines with
  | nil => intro ctr buf; simp [segLoop_nil]
  | cons line rest ih =>
    intro ctr buf
    rw [segLoop_cons]
    split_ifs with hblank hfew hmany hm1 hmod
    · exact absurd hfew.1 (by omega)
    · simp
    · exact absurd hmany.1 (by omega)
    · exact ih (ctr + 1) none
    · exact ih (ctr + 1) none
    · exact ih (ctr + 1) (some (buf.getD [] ++ [pyStrip line]))

/-- A blank-line ending (normal or too-few) needs a blank line; an
exhaustion ending means there is none. -/
theorem segLoop_blank_mem (e : Int) (m : Nat) :
    ∀ (lines : List String) (ctr : Nat) (buf : Option (List String)),
      (((segLoop e m lines ctr buf).2.2 = SegTerm.doneBlank
          ∨ (segLoop e m lines ctr buf).2.2 = SegTerm.tooFew) → "" ∈ lines)
        ∧ ((segLoop e m lines ctr buf).2.2 = SegTerm.exhausted
          → "" ∉ lines) := by
  intro lines
  induction lines with
  | nil => intro ctr buf; simp [segLoop_nil]
  | cons line rest ih =>
    intro ctr buf
    rw [segLoop_cons]
    split_ifs with hblank hfew hmany hm1 hmod
    · subst hblank; simp
    · subst hblank; simp
    · simp [hblank]
    · have h := ih (ctr + 1) none
      simp only [List.mem_cons]
      constructor
      · intro ht; exact Or.inr (h.1 ht)
      · intro ht hmem
        rcases hmem with hl | hl
        · exact hblank hl.symm
        · exact h.2 ht hl
    · have h := ih (ctr + 1) none
      simp only [List.mem_cons]
      constructor
      · intro ht; exact Or.inr (h.1 ht)
      · intro ht hmem
        rcases hmem with hl | hl
        · exact hblank hl.symm
        · exact h.2 ht hl
    · have h := ih (ctr + 1) (some (buf.getD [] ++ [pyStrip line]))
      simp only [List.mem_cons]
      constructor
      · intro ht; exact Or.inr (h.1 ht)
      · intro ht hmem
        rcases hmem with hl | hl
        · exact hblank hl.symm
        · exact h.2 ht hl

/-- A run ending at a blank line or at exhaustion has consumed exactly the
data lines before the first blank line. -/
theorem segLoop_consumed (e : Int) (m : Nat) :
    ∀ (lines : List String) (ctr : Nat) (buf : Option (List String)),
      ((segLoop e m lines ctr buf).2.2 = SegTerm.doneBlank
          ∨ (segLoop e m lines ctr buf).2.2 = SegTerm.exhausted) →
        (segLoop e m lines ctr buf).2.1 = ctr + (dataLines lines).length := by
  intro lines
  induction lines with
  | nil => intro ctr buf _; simp [segLoop_nil, dataLines]
  | cons line rest ih =>
    intro ctr buf
    rw [segLoop_cons]
    split_ifs with hblank hfew hmany hm1 hmod
    · simp
    · subst hblank
      intro _
      simp [dataLines]
    · simp
    · intro ht
      have h := ih (ctr + 1) none ht
      rw [h]
      simp only [dataLines, List.takeWhile_cons]
      rw [if_pos (by simp [hblank])]
      simp only [List.length_cons]
      omega
    · intro ht
      have h := ih (ctr + 1) none ht
      rw [h]
      simp only [dataLines, List.takeWhile_cons]
      rw [if_pos (by simp [hblank])]
      simp only [List.length_cons]
      omega
    · intro ht
      have h := ih (ctr + 1) (some (buf.getD [] ++ [pyStrip line])) ht
      rw [h]
      simp only [dataLines, List.takeWhile_cons]
      rw [if_pos (by simp [hblank])]
      simp only [List.length_cons]
      omega

/-- The count discipline for a non-negative declared count `k`: starting
from a counter within the `m * k` budget, a blank-line ending or a
too-many failure happens exactly at a full budget, a too-few failure
strictly below it, and exhaustion never beyond it. -/
theorem segLoop_master (k m : Nat) (hm : 1 ≤ m) :
    ∀ (lines : List String) (ctr : Nat) (buf : Option (List String)),
      ctr ≤ m * k →
        ((segLoop (k : Int) m lines ctr buf).2.2 = SegTerm.doneBlank →
            (segLoop (k : Int) m lines ctr buf).2.1 = m * k)
        ∧ ((segLoop (k : Int) m lines ctr buf).2.2 = SegTerm.tooMany →
            (segLoop (k : Int) m lines ctr buf).2.1 = m * k)
        ∧ ((segLoop (k : Int) m lines ctr buf).2.2 = SegTerm.tooFew →
            (segLoop (k : Int) m lines ctr buf).2.1 < m * k)
        ∧ ((segLoop (k : Int) m lines ctr buf).2.2 = SegTerm.exhausted →
            (segLoop (k : Int) m lines ctr buf).2.1 ≤ m * k) := by
  have hm0 : 0 < m := hm
  intro lines
  induction lines with
  | nil => intro ctr buf hctr; simp [segLoop_nil, hctr]
  | cons line rest ih =>
    intro ctr buf hctr
    rw [segLoop_cons]
    split_ifs with hblank hfew hmany hm1 hmod
    · refine ⟨by simp, by simp, fun _ => ?_, by simp⟩
      show ctr < m * k
      obtain ⟨-, hne⟩ := hfew
      have hne' : ctr / m ≠ k := fun hh => hne (by exact_mod_cast hh)
      refine lt_of_le_of_ne hctr (fun heq => hne' ?_)
      rw [heq, Nat.mul_div_cancel_left k hm0]
    · refine ⟨fun _ => ?_, by simp, by simp, by simp⟩
      show ctr = m * k
      push_neg at hfew
      have hcast := hfew (Int.natCast_nonneg k)
      have heq : ctr / m = k := by exact_mod_cast hcast
      have hle : m * k ≤ ctr := by
        have hdm : ctr / m * m ≤ ctr := Nat.div_mul_le_self ctr m
        rw [heq] at hdm
        calc m * k = k * m := Nat.mul_comm m k
          _ ≤ ctr := hdm
      exact le_antisymm hctr hle
    · refine ⟨by simp, fun _ => ?_, by simp, by simp⟩
      show ctr = m * k
      obtain ⟨-, hnl⟩ := hmany
      have hge : k ≤ ctr / m :=
        Nat.le_of_not_lt (fun hh => hnl (by exact_mod_cast hh))
      have hle : m * k ≤ ctr := by
        calc m * k ≤ m * (ctr / m) := Nat.mul_le_mul_left m hge
          _ = ctr / m * m := Nat.mul_comm _ _
          _ ≤ ctr := Nat.div_mul_le_self ctr m
      exact le_antisymm hctr hle
    all_goals {
      push_neg at hmany
      have hlt : ctr / m < k := by
        have := hmany (Int.natCast_nonneg k)
        exact_mod_cast this
      have hbudget : ctr + 1 ≤ m * k := by
        have hdm := Nat.div_add_mod ctr m
        have hmod2 : ctr % m < m := Nat.mod_lt _ hm0
        have h1 : ctr + 1 ≤ m * (ctr / m) + m := by omega
        calc ctr + 1 ≤ m * (ctr / m) + m := h1
          _ = m * (ctr / m + 1) := (Nat.mul_succ m (ctr / m)).symm
          _ ≤ m * k := Nat.mul_le_mul_left m hlt
      first
        | exact ih (ctr + 1) none hbudget
        | exact ih (ctr + 1) (some (buf.getD [] ++ [pyStrip line])) hbudget
    }

/-- With a grouping factor other than 1 the loop never yields single-line
cases. -/
theorem segLoop_no_line (e : Int) (m : Nat) (hm1 : m ≠ 1) :
    ∀ (lines : List String) (ctr : Nat) (buf : Option (List String))
      (s : String), Case.line s ∉ (segLoop e m lines ctr buf).1 := by
  intro lines
  induction lines with
  | nil => intro ctr buf s; simp [segLoop_nil]
  | cons line rest ih =>
    intro ctr buf s
    rw [segLoop_cons]
    split_ifs with hblank hfew hmany hmod
    · simp
    · simp
    · simp
    · simp only [List.mem_cons]
      rintro (h | h)
      · exact Case.noConfusion h
      · exact ih (ctr + 1) none s h
    · exact ih (ctr + 1) (some (buf.getD [] ++ [pyStrip line])) s

/-- Every group the loop yields holds exactly `m` lines, provided the
in-progress buffer holds `ctr % m` lines (true of the initial state). -/
theorem segLoop_group_len (e : Int) (m : Nat) (hm : 1 ≤ m) :
    ∀ (lines : List String) (ctr : Nat) (buf : Option (List String)),
      (buf.getD []).length = ctr % m →
        ∀ g, Case.group g ∈ (segLoop e m lines ctr buf).1 → g.length = m := by
  intro lines
  induction lines with
  | nil => intro ctr buf _ g; simp [segLoop_nil]
  | cons line rest ih =>
    intro ctr buf hbuf g
    rw [segLoop_cons]
    split_ifs with hblank hfew hmany hm1 hmod
    · simp
    · simp
    · simp
    · simp only [List.mem_cons]
      rintro (h | h)
      · exact Case.noConfusion h
      · refine ih (ctr + 1) none ?_ g h
        simp [hm1, Nat.mod_one]
    · simp only [List.mem_cons]
      rintro (h | h)
      · have hlen := succ_mod_eq_zero hm hmod
        have hg := Case.group.inj h
        rw [hg]
        simp only [List.length_append, List.length_cons, List.length_nil, hbuf]
        omega
      · refine ih (ctr + 1) none ?_ g h
        simp [hmod]
    · refine ih (ctr + 1) (some (buf.getD [] ++ [pyStrip line])) ?_ g
      have hlen := succ_mod_ne_zero hm hmod
      simp only [Option.getD_some, List.length_append, List.length_cons,
        List.length_nil, hbuf]
      omega

theorem chunksGo_nil {α : Type u} (m : Nat) (buf : List α) :
    chunksGo m buf [] = [] := rfl

theorem chunksGo_cons {α : Type u} (m : Nat) (buf : List α) (x : α)
    (xs : List α) :
    chunksGo m buf (x :: xs) =
      if buf.length + 1 = m then (buf ++ [x]) :: chunksGo m [] xs
      else chunksGo m (buf ++ [x]) xs := rfl

theorem dataLines_cons_blank (rest : List String) :
    dataLines ("" :: rest) = [] := by
  simp [dataLines, List.takeWhile_cons]

theorem dataLines_cons (line : String) (rest : List String) (h : line ≠ "") :
    dataLines (line :: rest) = line :: dataLines rest := by
  simp [dataLines, List.takeWhile_cons, h]

/-- A run that reaches a terminator without a count failure yields exactly
the grouping of the stripped data lines: the stripped lines themselves for
`lines_per_case = 1`, else the complete groups of `m` consecutive stripped
lines, with a trailing short group dropped. -/
theorem segLoop_content (e : Int) (m : Nat) (hm : 1 ≤ m) :
    ∀ (lines : List String) (ctr : Nat) (buf : Option (List String)),
      ((segLoop e m lines ctr buf).2.2 = SegTerm.doneBlank
          ∨ (segLoop e m lines ctr buf).2.2 = SegTerm.exhausted) →
        (buf.getD []).length = ctr % m →
        (segLoop e m lines ctr buf).1 =
          if m = 1 then (dataLines lines).map (fun l => Case.line (pyStrip l))
          else (chunksGo m (buf.getD []) ((dataLines lines).map pyStrip)).map
            Case.group := by
  intro lines
  induction lines with
  | nil =>
    intro ctr buf _ _
    simp only [segLoop_nil, dataLines, List.takeWhile_nil, List.map_nil,
      chunksGo_nil]
    split_ifs <;> rfl
  | cons line rest ih =>
    intro ctr buf hterm hbuf
    rw [segLoop_cons] at hterm
    rw [segLoop_cons]
    by_cases hblank : line = ""
    · rw [if_pos hblank] at hterm ⊢
      by_cases hfew : 0 ≤ e ∧ ((ctr / m : Nat) : Int) ≠ e
      · rw [if_pos hfew] at hterm
        rcases hterm with h | h <;> simp at h
      · rw [if_neg hfew]
        subst hblank
        rw [dataLines_cons_blank]
        simp only [List.map_nil, chunksGo_nil]
        split_ifs <;> rfl
    · rw [if_neg hblank] at hterm ⊢
      by_cases hmany : 0 ≤ e ∧ ¬ ((ctr / m : Nat) : Int) < e
      · rw [if_pos hmany] at hterm
        rcases hterm with h | h <;> simp at h
      · rw [if_neg hmany] at hterm ⊢
        rw [dataLines_cons line rest hblank]
        by_cases hm1 : m = 1
        · rw [if_pos hm1] at hterm ⊢
          have hrec := ih (ctr + 1) none hterm (by simp [hm1, Nat.mod_one])
          rw [if_pos hm1] at hrec
          show Case.line (pyStrip line) ::
            (segLoop e m rest (ctr + 1) none).1 = _
          rw [if_pos hm1, hrec, List.map_cons]
        · rw [if_neg hm1] at hterm ⊢
          rw [if_neg hm1]
          by_cases hmod : (ctr + 1) % m = 0
          · rw [if_pos hmod] at hterm ⊢
            have hrec := ih (ctr + 1) none hterm (by simp [hmod])
            rw [if_neg hm1] at hrec
            simp only [Option.getD_none] at hrec
            show Case.group (buf.getD [] ++ [pyStrip line]) ::
              (segLoop e m rest (ctr + 1) none).1 = _
            rw [hrec, List.map_cons, chunksGo_cons]
            have hfull : (buf.getD []).length + 1 = m := by
              have := succ_mod_eq_zero hm hmod
              omega
            rw [if_pos hfull, List.map_cons]
          · rw [if_neg hmod] at hterm ⊢
            have hlen : (buf.getD [] ++ [pyStrip line]).length = (ctr + 1) % m := by
              have := succ_mod_ne_zero hm hmod
              simp only [List.length_append, List.length_cons,
                List.length_nil, hbuf]
              omega
            have hrec := ih (ctr + 1) (some (buf.getD [] ++ [pyStrip line]))
              hterm (by simpa using hlen)
            rw [if_neg hm1] at hrec
            simp only [Option.getD_some] at hrec
            rw [hrec, List.map_cons, chunksGo_cons]
            have hnotfull : ¬ (buf.getD []).length + 1 = m := by
              intro hcontr
              have hh := succ_mod_ne_zero hm hmod
              have hr2 : (ctr + 1) % m < m := Nat.mod_lt _ hm
              rw [hbuf] at hcontr
              omega
            rw [if_neg hnotfull]

/-! ## Lemmas for the worker-pool model -/

theorem chunkGo_nil {α : Type u} (c : Nat) (buf : List α) :
    chunkGo c buf [] = if buf.isEmpty then [] else [buf] := rfl

theorem chunkGo_cons {α : Type u} (c : Nat) (buf : List α) (x : α)
    (xs : List α) :
    chunkGo c buf (x :: xs) =
      if buf.length + 1 = c then (buf ++ [x]) :: chunkGo c [] xs
      else chunkGo c (buf ++ [x]) xs := rfl

/-- Concatenating the chunks recovers the pending buffer and the jobs. -/
theorem chunkGo_flatten {α : Type u} (c : Nat) :
    ∀ (xs buf : List α), (chunkGo c buf xs).flatten = buf ++ xs := by
  intro xs
  induction xs with
  | nil =>
    intro buf
    rw [chunkGo_nil]
    cases buf <;> simp
  | cons x xs ih =>
    intro buf
    rw [chunkGo_cons]
    split_ifs with h
    · simp [ih []]
    · rw [ih (buf ++ [x])]
      simp

/-- Looking a key up in the graph of a function over a key list that
contains it returns the function's value there, whatever the order of the
list. -/
theorem lookup_map_graph {δ : Type u} :
    ∀ (ord : List Nat) (g : Nat → δ) (i : Nat), i ∈ ord →
      (ord.map (fun j => (j, g j))).lookup i = some (g i) := by
  intro ord
  induction ord with
  | nil => intro g i h; simp at h
  | cons j tl ih =>
    intro g i hmem
    by_cases hij : i = j
    · subst hij
      rw [List.map_cons, List.lookup_cons]
      simp only [beq_self_eq_true]
    · have hbeq : (i == j) = false := beq_false_of_ne hij
      rw [List.map_cons, List.lookup_cons]
      simp only [hbeq]
      refine ih g i ?_
      rcases List.mem_cons.mp hmem with h | h
      · exact absurd h hij
      · exact h

/-- Reading a list back through positional defaults over its index range
is the identity. -/
theorem range_map_getD {δ : Type u} (d : δ) :
    ∀ (L : List δ), (List.range L.length).map (fun i => L.getD i d) = L := by
  intro L
  induction L with
  | nil => simp
  | cons a tl ih =>
    rw [List.length_cons, List.range_succ_eq_map, List.map_cons, List.map_map]
    have hcomp : ((fun i => (a :: tl).getD i d) ∘ Nat.succ)
        = fun i => tl.getD i d := by
      funext i
      simp [List.getD_cons_succ]
    rw [hcomp, ih]
    simp [List.getD_cons_zero]

theorem flatten_map_map {σ : Type u} {τ : Type v} (f : σ → τ) :
    ∀ (L : List (List σ)), (L.map (fun l => l.map f)).flatten
      = L.flatten.map f := by
  intro L
  induction L with
  | nil => simp
  | cons a tl ih =>
    rw [List.map_cons, List.flatten_cons, List.flatten_cons, List.map_append,
      ih]

theorem execute_threaded_def {α : Type u} {β : Type v} {γ : Type w}
    (p : Pipeline α β γ) (threads chunkSize : Nat) (order : List Nat)
    (jobs : List (Nat × α)) :
    Main.execute_threaded p threads chunkSize order jobs =
      ((List.range (chunkGo chunkSize [] jobs).length).map
        (fun i => (((order.map (fun j =>
            (j, ((chunkGo chunkSize [] jobs).getD j []).map
              (Main.execute p)))).lookup i).getD []))).flatten := rfl

/-- C2 (confirmed): for every pipeline, pool size `p ≥ 1`, chunk split and
completion order of the workers, the parallel strategy
`Main.execute_threaded` returns a result sequence element-for-element
identical, in the same order, to `Main.execute_serially` on the same
enumerated cases, parse and solve being deterministic functions. -/
theorem claim_C2_parallel_serial_eq {α : Type u} {β : Type v} {γ : Type w}
    (p : Pipeline α β γ) (threads chunkSize : Nat) (order : List Nat)
    (jobs : List (Nat × α)) (hthreads : 1 ≤ threads)
    (horder : order.Perm
      (List.range (chunkGo chunkSize ([] : List (Nat × α)) jobs).length)) :
    Main.execute_threaded p threads chunkSize order jobs
      = Main.execute_serially p jobs := by
  rw [execute_threaded_def]
  have hcong : ∀ i ∈ List.range
      (chunkGo chunkSize ([] : List (Nat × α)) jobs).length,
      (((order.map (fun j => (j, ((chunkGo chunkSize [] jobs).getD j []).map
          (Main.execute p)))).lookup i).getD [])
        = ((chunkGo chunkSize [] jobs).getD i []).map (Main.execute p) := by
    intro i hi
    have hmem : i ∈ order := horder.mem_iff.2 hi
    rw [lookup_map_graph order _ i hmem, Option.getD_some]
  rw [List.map_congr_left hcong]
  have hcomp : (fun i => ((chunkGo chunkSize ([] : List (Nat × α)) jobs).getD
      i []).map (Main.execute p))
      = (fun ch => ch.map (Main.execute p))
        ∘ (fun i => (chunkGo chunkSize [] jobs).getD i []) := rfl
  rw [hcomp, ← List.map_map, range_map_getD ([] : List (Nat × α)),
    flatten_map_map, chunkGo_flatten]
  rfl

/-- Concrete pipeline for the pool-equivalence witness: the default
`parse_input` keeps the input and `solve` maps case `n` to `n * 10` (the
spec's concurrency scenario). -/
def natPipe : Pipeline Nat Nat Nat :=
  { parse := fun _ x => x, solve := fun n _ => n * 10 }

theorem claim_C2_witness :
    1 ≤ 4
    ∧ [1, 0].Perm (List.range
        (chunkGo 2 ([] : List (Nat × Nat)) [(1, 7), (2, 8), (3, 9)]).length)
    ∧ Main.execute_threaded natPipe 4 2 [1, 0] [(1, 7), (2, 8), (3, 9)]
        = Main.execute_serially natPipe [(1, 7), (2, 8), (3, 9)] :=
  ⟨by decide, by decide,
    claim_C2_parallel_serial_eq natPipe 4 2 [1, 0] [(1, 7), (2, 8), (3, 9)]
      (by decide) (by decide)⟩

/-! ## Claim theorems -/

theorem test_case_iter_cons (first : String) (rest : List String) (m : Nat)
    (e : Int) (hm : 1 ≤ m) (hf : pyInt first = some e) :
    test_case_iter (first :: rest) m = Except.ok (segLoop e m rest 0 none) := by
  have hnm : ¬ m < 1 := by omega
  simp [test_case_iter, hf, hnm]

/-- C1 (corrected, counterexample): on input with declared count 1 and an
exhausted line sequence (no blank line, no data), the segmenter yields 0
cases and stops silently — no too-few failure at end-of-input, and not the
declared 1 case. -/
theorem claim_C1_cex :
    test_case_iter ["1"] 1 = Except.ok ([], 0, SegTerm.exhausted)
    ∧ ([] : List Case).length ≠ 1
    ∧ SegTerm.exhausted ≠ SegTerm.tooFew :=
  ⟨rfl, by decide, by decide⟩

/-- C1 (amended): for a declared count `k ≥ 0`, the segmenter yields
exactly `k` cases when it terminates at a blank line (and also before a
too-many failure), fewer when a blank line arrives early — which raises
the too-few failure — and at most `k` with no error at all when the line
sequence is exhausted without any blank line: exhaustion is not subjected
to the count check. -/
theorem claim_C1_amended (first : String) (rest : List String) (m k : Nat)
    (hm : 1 ≤ m) (hf : pyInt first = some (k : Int)) :
    ∃ cs ctrF t, test_case_iter (first :: rest) m = Except.ok (cs, ctrF, t)
      ∧ (t = SegTerm.doneBlank → cs.length = k)
      ∧ (t = SegTerm.tooMany → cs.length = k)
      ∧ (t = SegTerm.tooFew → cs.length < k)
      ∧ (t = SegTerm.exhausted → cs.length ≤ k)
      ∧ ("" ∈ rest → t = SegTerm.doneBlank ∨ t = SegTerm.tooFew
          ∨ t = SegTerm.tooMany)
      ∧ ("" ∉ rest → t = SegTerm.exhausted ∨ t = SegTerm.tooMany) := by
  have hm0 : 0 < m := hm
  refine ⟨(segLoop (k : Int) m rest 0 none).1,
    (segLoop (k : Int) m rest 0 none).2.1,
    (segLoop (k : Int) m rest 0 none).2.2,
    test_case_iter_cons first rest m (k : Int) hm hf, ?_, ?_, ?_, ?_, ?_, ?_⟩
  all_goals
    have hlen := (segLoop_len_div (k : Int) m hm rest 0 none).1
    have hmaster := segLoop_master k m hm rest 0 none (Nat.zero_le _)
    have hbm := segLoop_blank_mem (k : Int) m rest 0 none
    rw [Nat.zero_div] at hlen
  · intro ht
    rw [Nat.add_zero] at hlen
    rw [hlen, hmaster.1 ht, Nat.mul_div_cancel_left k hm0]
  · intro ht
    rw [Nat.add_zero] at hlen
    rw [hlen, hmaster.2.1 ht, Nat.mul_div_cancel_left k hm0]
  · intro ht
    rw [Nat.add_zero] at hlen
    rw [hlen]
    have hlt := hmaster.2.2.1 ht
    refine (Nat.div_lt_iff_lt_mul hm0).2 ?_
    rw [Nat.mul_comm k m]
    exact hlt
  · intro ht
    rw [Nat.add_zero] at hlen
    rw [hlen]
    have hle := hmaster.2.2.2 ht
    calc (segLoop (k : Int) m rest 0 none).2.1 / m
        ≤ m * k / m := Nat.div_le_div_right hle
      _ = k := Nat.mul_div_cancel_left k hm0
  · intro hmem
    cases ht : (segLoop (k : Int) m rest 0 none).2.2 with
    | doneBlank => exact Or.inl rfl
    | tooFew => exact Or.inr (Or.inl rfl)
    | tooMany => exact Or.inr (Or.inr rfl)
    | exhausted => exact absurd hmem (hbm.2 ht)
  · intro hmem
    cases ht : (segLoop (k : Int) m rest 0 none).2.2 with
    | doneBlank => exact absurd (hbm.1 (Or.inl ht)) hmem
    | tooFew => exact absurd (hbm.1 (Or.inr ht)) hmem
    | tooMany => exact Or.inr rfl
    | exhausted => exact Or.inl rfl

theorem claim_C1_witness :
    1 ≤ 1 ∧ pyInt "2" = some (2 : Int)
    ∧ (∃ cs ctrF t,
        test_case_iter ["2", "a", "b", ""] 1 = Except.ok (cs, ctrF, t)
        ∧ (t = SegTerm.doneBlank → cs.length = 2)
        ∧ (t = SegTerm.tooMany → cs.length = 2)
        ∧ (t = SegTerm.tooFew → cs.length < 2)
        ∧ (t = SegTerm.exhausted → cs.length ≤ 2)
        ∧ ("" ∈ ["a", "b", ""] → t = SegTerm.doneBlank ∨ t = SegTerm.tooFew
            ∨ t = SegTerm.tooMany)
        ∧ ("" ∉ ["a", "b", ""] → t = SegTerm.exhausted
            ∨ t = SegTerm.tooMany)) :=
  ⟨by decide, rfl, claim_C1_amended "2" ["a", "b", ""] 1 2 (by decide) rfl⟩

/-- C4 (confirmed): for a declared count `k ≥ 0`, a too-many failure is
raised at the first excess non-blank line — after exactly `k` complete
cases' worth of data lines (`ctrF = m * k`) and with exactly the `k`
declared cases already yielded, none beyond; in particular the input
`"1\nA\nB\n"` fails at the second data line having yielded only `"A"`. -/
theorem claim_C4_too_many (first : String) (rest : List String) (m k : Nat)
    (hm : 1 ≤ m) (hf : pyInt first = some (k : Int)) :
    (∃ cs ctrF t, test_case_iter (first :: rest) m = Except.ok (cs, ctrF, t)
      ∧ (t = SegTerm.tooMany → cs.length = k ∧ ctrF = m * k))
    ∧ test_case_iter (pySplitlines "1\nA\nB\n") 1
        = Except.ok ([Case.line "A"], 1, SegTerm.tooMany) := by
  constructor
  · have hm0 : 0 < m := hm
    refine ⟨(segLoop (k : Int) m rest 0 none).1,
      (segLoop (k : Int) m rest 0 none).2.1,
      (segLoop (k : Int) m rest 0 none).2.2,
      test_case_iter_cons first rest m (k : Int) hm hf, ?_⟩
    intro ht
    have hlen := (segLoop_len_div (k : Int) m hm rest 0 none).1
    have hmaster := segLoop_master k m hm rest 0 none (Nat.zero_le _)
    rw [Nat.zero_div, Nat.add_zero] at hlen
    have hctr := hmaster.2.1 ht
    refine ⟨?_, hctr⟩
    rw [hlen, hctr, Nat.mul_div_cancel_left k hm0]
  · rfl

theorem claim_C4_witness :
    1 ≤ 1 ∧ pyInt "1" = some (1 : Int)
    ∧ ((∃ cs ctrF t,
        test_case_iter ["1", "A", "B"] 1 = Except.ok (cs, ctrF, t)
        ∧ (t = SegTerm.tooMany → cs.length = 1 ∧ ctrF = 1 * 1))
      ∧ test_case_iter (pySplitlines "1\nA\nB\n") 1
          = Except.ok ([Case.line "A"], 1, SegTerm.tooMany)) :=
  ⟨by decide, rfl, claim_C4_too_many "1" ["A", "B"] 1 1 (by decide) rfl⟩

/-- C5 (confirmed): with a negative declared count the segmenter never
raises a count error: it consumes exactly the data lines up to the first
blank line (all lines when there is none), ends at the blank line when one
occurs and by exhaustion otherwise. -/
theorem claim_C5_unlimited (first : String) (rest : List String) (m : Nat)
    (e : Int) (hm : 1 ≤ m) (hf : pyInt first = some e) (he : e < 0) :
    ∃ cs ctrF t, test_case_iter (first :: rest) m = Except.ok (cs, ctrF, t)
      ∧ (t = SegTerm.doneBlank ∨ t = SegTerm.exhausted)
      ∧ ctrF = (dataLines rest).length
      ∧ (t = SegTerm.doneBlank ↔ "" ∈ rest) := by
  have hterm := segLoop_term_neg e m he rest 0 none
  have hbm := segLoop_blank_mem e m rest 0 none
  refine ⟨(segLoop e m rest 0 none).1, (segLoop e m rest 0 none).2.1,
    (segLoop e m rest 0 none).2.2,
    test_case_iter_cons first rest m e hm hf, hterm, ?_, ?_, ?_⟩
  · have := segLoop_consumed e m rest 0 none hterm
    rw [this, Nat.zero_add]
  · intro ht
    exact hbm.1 (Or.inl ht)
  · intro hmem
    rcases hterm with ht | ht
    · exact ht
    · exact absurd hmem (hbm.2 ht)

theorem claim_C5_witness :
    1 ≤ 1 ∧ pyInt "-1" = some (-1 : Int) ∧ (-1 : Int) < 0
    ∧ (∃ cs ctrF t,
        test_case_iter ["-1", "a", "", "b"] 1 = Except.ok (cs, ctrF, t)
        ∧ (t = SegTerm.doneBlank ∨ t = SegTerm.exhausted)
        ∧ ctrF = (dataLines ["a", "", "b"]).length
        ∧ (t = SegTerm.doneBlank ↔ "" ∈ ["a", "", "b"])) :=
  ⟨by decide, rfl, by decide,
    claim_C5_unlimited "-1" ["a", "", "b"] 1 (-1) (by decide) rfl (by decide)⟩

/-- C6 (corrected, counterexample): with `lines_per_case = 2` and
unlimited declared count, the input `"-1\nA\nB\nC\n\n"` reaches its blank
terminator having consumed 3 data lines — not a multiple of 2 — while
yielding the single complete group `["A", "B"]`. -/
theorem claim_C6_cex :
    test_case_iter (pySplitlines "-1\nA\nB\nC\n\n") 2
      = Except.ok ([Case.group ["A", "B"]], 3, SegTerm.doneBlank)
    ∧ dataLines ["A", "B", "C", ""] = ["A", "B", "C"]
    ∧ ¬ (2 ∣ 3) :=
  ⟨rfl, rfl, by decide⟩

/-- C6 (amended): for `lines_per_case = m > 1` every emitted Case is a
group of exactly `m` consecutive stripped data lines in input order (and
never a single-line Case); when the run reaches a terminator the yielded
cases are precisely the complete `m`-groups of the stripped data lines,
any trailing partial group being dropped — so the data lines covered by
emitted cases number a multiple of `m`, while the total consumed count is
one only when the declared count is non-negative and the run terminates
at a blank line, where it equals `m * k`. -/
theorem claim_C6_amended (first : String) (rest : List String) (m : Nat)
    (e : Int) (hm2 : 2 ≤ m) (hf : pyInt first = some e) :
    ∃ cs ctrF t, test_case_iter (first :: rest) m = Except.ok (cs, ctrF, t)
      ∧ (∀ g, Case.group g ∈ cs → g.length = m)
      ∧ (∀ s, Case.line s ∉ cs)
      ∧ ((t = SegTerm.doneBlank ∨ t = SegTerm.exhausted) →
          cs = (chunksGo m [] ((dataLines rest).map pyStrip)).map Case.group)
      ∧ (∀ k : Nat, e = (k : Int) → t = SegTerm.doneBlank → ctrF = m * k) := by
  have hm : 1 ≤ m := by omega
  have hm1 : m ≠ 1 := by omega
  refine ⟨(segLoop e m rest 0 none).1, (segLoop e m rest 0 none).2.1,
    (segLoop e m rest 0 none).2.2,
    test_case_iter_cons first rest m e hm hf, ?_, ?_, ?_, ?_⟩
  · exact segLoop_group_len e m hm rest 0 none (by simp)
  · exact fun s => segLoop_no_line e m hm1 rest 0 none s
  · intro hterm
    have hc := segLoop_content e m hm rest 0 none hterm (by simp)
    rw [if_neg hm1] at hc
    simpa using hc
  · intro k hk ht
    subst hk
    have hmaster := segLoop_master k m hm rest 0 none (Nat.zero_le _)
    exact hmaster.1 ht

theorem claim_C6_witness :
    2 ≤ 2 ∧ pyInt "2" = some (2 : Int)
    ∧ (∃ cs ctrF t,
        test_case_iter ["2", "a", "b", "c", "d", ""] 2
          = Except.ok (cs, ctrF, t)
        ∧ (∀ g, Case.group g ∈ cs → g.length = 2)
        ∧ (∀ s, Case.line s ∉ cs)
        ∧ ((t = SegTerm.doneBlank ∨ t = SegTerm.exhausted) →
            cs = (chunksGo 2 []
              ((dataLines ["a", "b", "c", "d", ""]).map pyStrip)).map
                Case.group)
        ∧ (∀ k : Nat, (2 : Int) = (k : Int) → t = SegTerm.doneBlank →
            ctrF = 2 * k)) :=
  ⟨by decide, rfl,
    claim_C6_amended "2" ["a", "b", "c", "d", ""] 2 2 (by decide) rfl⟩

/-- C8 (corrected, counterexample): the segmenter strips leading
whitespace too: the data line `"  A  "` is yielded as `"A"`, not as
`"  A"` with only the trailing whitespace removed. -/
theorem claim_C8_cex :
    test_case_iter ["1", "  A  ", ""] 1
      = Except.ok ([Case.line "A"], 1, SegTerm.doneBlank)
    ∧ Case.line "A" ≠ Case.line "  A" :=
  ⟨rfl, by decide⟩

/-- C8 (amended): every accepted data line is emitted with whitespace
removed from both ends (Python `str.strip()`), everything between the
outermost non-whitespace characters preserved: a run reaching a terminator
yields exactly `segEmit m` of the `pyStrip`-stripped data lines. -/
theorem claim_C8_amended (first : String) (rest : List String) (m : Nat)
    (e : Int) (hm : 1 ≤ m) (hf : pyInt first = some e) :
    ∃ cs ctrF t, test_case_iter (first :: rest) m = Except.ok (cs, ctrF, t)
      ∧ ((t = SegTerm.doneBlank ∨ t = SegTerm.exhausted) →
          cs = segEmit m ((dataLines rest).map pyStrip)) := by
  refine ⟨(segLoop e m rest 0 none).1, (segLoop e m rest 0 none).2.1,
    (segLoop e m rest 0 none).2.2,
    test_case_iter_cons first rest m e hm hf, ?_⟩
  intro hterm
  have hc := segLoop_content e m hm rest 0 none hterm (by simp)
  simp only [Option.getD_none] at hc
  rw [hc]
  unfold segEmit
  split_ifs with hm1
  · rw [List.map_map]
    rfl
  · rfl

theorem claim_C8_witness :
    1 ≤ 1 ∧ pyInt "1" = some (1 : Int)
    ∧ (∃ cs ctrF t,
        test_case_iter ["1", "  A  ", ""] 1 = Except.ok (cs, ctrF, t)
        ∧ ((t = SegTerm.doneBlank ∨ t = SegTerm.exhausted) →
            cs = segEmit 1 ((dataLines ["  A  ", ""]).map pyStrip))) :=
  ⟨by decide, rfl, claim_C8_amended "1" ["  A  ", ""] 1 1 (by decide) rfl⟩

/-- C9 (confirmed): a non-empty line of only whitespace is truthy in
Python, so the segmenter treats it as a data line, not as the blank
terminator: it is subject to the too-many check (with declared count 0 it
raises too-many immediately), and with `lines_per_case = 1` it is yielded
as the empty string after stripping. -/
theorem claim_C9_ws_line (s : String) (rest : List String)
    (hs : s ≠ "") (hw : pyStrip s = "") :
    test_case_iter ("0" :: s :: rest) 1 = Except.ok ([], 0, SegTerm.tooMany)
    ∧ test_case_iter ("-1" :: s :: rest) 1
      = Except.ok (Case.line "" :: (segLoop (-1) 1 rest 1 none).1,
          (segLoop (-1) 1 rest 1 none).2) := by
  constructor
  · rw [test_case_iter_cons "0" (s :: rest) 1 0 (by decide) rfl,
      segLoop_cons, if_neg hs, if_pos (by simp)]
  · rw [test_case_iter_cons "-1" (s :: rest) 1 (-1) (by decide) rfl,
      segLoop_cons, if_neg hs, if_neg (by simp), if_pos rfl, hw]

theorem claim_C9_witness :
    (" " ≠ "" ∧ pyStrip " " = "")
    ∧ test_case_iter ["0", " ", "A"] 1 = Except.ok ([], 0, SegTerm.tooMany)
    ∧ test_case_iter ["-1", " ", "A"] 1
      = Except.ok (Case.line "" :: (segLoop (-1) 1 ["A"] 1 none).1,
          (segLoop (-1) 1 ["A"] 1 none).2) :=
  ⟨⟨by decide, rfl⟩, claim_C9_ws_line " " ["A"] (by decide) rfl⟩

/-- C10 (confirmed): for `lines_per_case = m > 1` with a negative declared
count and a data-line count that is not a multiple of `m`, the run ends
without any error at the blank line or at exhaustion, has consumed every
data line, and has emitted only the complete `m`-groups: the trailing
partially filled group is silently discarded, so the lines covered by
emitted cases fall short of the consumed count. -/
theorem claim_C10_partial_group (first : String) (rest : List String)
    (m : Nat) (e : Int) (hm2 : 2 ≤ m) (hf : pyInt first = some e)
    (he : e < 0) (hnd : ¬ m ∣ (dataLines rest).length) :
    ∃ cs ctrF t, test_case_iter (first :: rest) m = Except.ok (cs, ctrF, t)
      ∧ (t = SegTerm.doneBlank ∨ t = SegTerm.exhausted)
      ∧ ctrF = (dataLines rest).length
      ∧ cs = (chunksGo m [] ((dataLines rest).map pyStrip)).map Case.group
      ∧ m * cs.length < ctrF := by
  have hm : 1 ≤ m := by omega
  have hm0 : 0 < m := hm
  have hm1 : m ≠ 1 := by omega
  have hterm := segLoop_term_neg e m he rest 0 none
  refine ⟨(segLoop e m rest 0 none).1, (segLoop e m rest 0 none).2.1,
    (segLoop e m rest 0 none).2.2,
    test_case_iter_cons first rest m e hm hf, hterm, ?_, ?_, ?_⟩
  · have := segLoop_consumed e m rest 0 none hterm
    rw [this, Nat.zero_add]
  · have hc := segLoop_content e m hm rest 0 none hterm (by simp)
    rw [if_neg hm1] at hc
    simpa using hc
  · have hlen := (segLoop_len_div e m hm rest 0 none).1
    rw [Nat.zero_div, Nat.add_zero] at hlen
    have hctr := segLoop_consumed e m rest 0 none hterm
    rw [Nat.zero_add] at hctr
    rw [hlen, hctr]
    have hle : m * ((dataLines rest).length / m) ≤ (dataLines rest).length := by
      calc m * ((dataLines rest).length / m)
          = (dataLines rest).length / m * m := Nat.mul_comm _ _
        _ ≤ (dataLines rest).length := Nat.div_mul_le_self _ _
    refine lt_of_le_of_ne hle (fun heq => hnd ?_)
    exact ⟨(dataLines rest).length / m, heq.symm⟩

theorem claim_C10_witness :
    2 ≤ 2 ∧ pyInt "-1" = some (-1 : Int) ∧ (-1 : Int) < 0
    ∧ ¬ 2 ∣ (dataLines ["A", "B", "C", ""]).length
    ∧ (∃ cs ctrF t,
        test_case_iter ["-1", "A", "B", "C", ""] 2 = Except.ok (cs, ctrF, t)
        ∧ (t = SegTerm.doneBlank ∨ t = SegTerm.exhausted)
        ∧ ctrF = (dataLines ["A", "B", "C", ""]).length
        ∧ cs = (chunksGo 2 []
            ((dataLines ["A", "B", "C", ""]).map pyStrip)).map Case.group
        ∧ 2 * cs.length < ctrF) :=
  ⟨by decide, rfl, by decide, by decide,
    claim_C10_partial_group "-1" ["A", "B", "C", ""] 2 (-1) (by decide) rfl
      (by decide) (by decide)⟩

/-- C3 (code_bug): the round-trip fixture cannot even be constructed —
`TestData.__init__` references the undefined names `output_str` /
`error_class` instead of its `expected` parameter, so construction raises
`NameError` — while a fixture record carrying the intended field values
runs through the harness and passes: two results, rendered output equal
to the expected text byte-for-byte. -/
theorem claim_C3_roundtrip :
    TestData.init "roundtrip" 2 "2\n3\n4\n"
        (Sum.inl "Case #1: 3\nCase #2: 4\n")
      = Except.error (PyExc.nameError "output_str")
    ∧ DriverTestCase._run 1 idExec caseStr
        { test_name := "roundtrip", num_cases := 2, input_str := "2\n3\n4\n",
          output_str := some "Case #1: 3\nCase #2: 4\n", error_class := none }
      = Except.ok () :=
  ⟨rfl, rfl⟩

/-- C7 (corrected, counterexample): a fixture declaring the expected
failure kind `AssertionError` (the kind of the segmentation count errors)
over an input whose pipeline run succeeds still passes: the harness
signals the missing failure by raising `AssertionError` inside its own
`try`, and the `except data.error_class` clause catches it. -/
theorem claim_C7_cex :
    Main.execute_all idExec (TestData.iter_cases
        { test_name := "t", num_cases := 1, input_str := "1\nA\n\n",
          output_str := none,
          error_class := some ExcClass.assertionErrorCls } 1)
      = Except.ok [Case.line "A"]
    ∧ DriverTestCase._run 1 idExec caseStr
        { test_name := "t", num_cases := 1, input_str := "1\nA\n\n",
          output_str := none,
          error_class := some ExcClass.assertionErrorCls }
      = Except.ok () :=
  ⟨rfl, rfl⟩

/-- C7 (amended): for a fixture declaring an expected failure kind, the
test passes if and only if the pipeline run raises a failure that is an
instance of the declared class — subclasses included — or the run succeeds
and `AssertionError` is an instance of the declared class (the harness's
own expected-failure-missing signal being caught by its `except` clause);
any other failure propagates and the test fails. -/
theorem claim_C7_amended {ρ : Type u} (m : Nat) (ex : HarnessExec ρ)
    (render : ρ → String) (nm : String) (nc : Nat) (inp : String)
    (out : Option String) (cls : ExcClass) :
    DriverTestCase._run m ex render
        { test_name := nm, num_cases := nc, input_str := inp,
          output_str := out, error_class := some cls }
      = Except.ok ()
    ↔ ((∃ err, Main.execute_all ex (TestData.iter_cases
          { test_name := nm, num_cases := nc, input_str := inp,
            output_str := out, error_class := some cls } m)
            = Except.error err
          ∧ instanceOf err cls = true)
      ∨ (∃ rs, Main.execute_all ex (TestData.iter_cases
          { test_name := nm, num_cases := nc, input_str := inp,
            output_str := out, error_class := some cls } m)
            = Except.ok rs
          ∧ instanceOf (PyExc.assertionError "Expected execution failure")
              cls = true)) := by
  have hrun : DriverTestCase._run m ex render
      { test_name := nm, num_cases := nc, input_str := inp,
        output_str := out, error_class := some cls }
    = match Main.execute_all ex (TestData.iter_cases
        { test_name := nm, num_cases := nc, input_str := inp,
          output_str := out, error_class := some cls } m) with
      | Except.ok _ =>
        if instanceOf (PyExc.assertionError "Expected execution failure")
            cls then Except.ok ()
        else Except.error (PyExc.assertionError "Expected execution failure")
      | Except.error e =>
        if instanceOf e cls then Except.ok () else Except.error e := rfl
  rw [hrun]
  cases hres : Main.execute_all ex (TestData.iter_cases
      { test_name := nm, num_cases := nc, input_str := inp,
        output_str := out, error_class := some cls } m) with
  | ok rs =>
    constructor
    · intro h
      have h2 : (if instanceOf
            (PyExc.assertionError "Expected execution failure") cls then
          Except.ok () else (Except.error
            (PyExc.assertionError "Expected execution failure")
              : Except PyExc Unit)) = Except.ok () := h
      refine Or.inr ⟨rs, rfl, ?_⟩
      by_cases hinst : instanceOf
          (PyExc.assertionError "Expected execution failure") cls = true
      · exact hinst
      · rw [if_neg hinst] at h2
        exact Except.noConfusion h2
    · rintro (⟨err, herr, _⟩ | ⟨rs2, _, hinst⟩)
      · exact Except.noConfusion herr
      · show (if instanceOf
            (PyExc.assertionError "Expected execution failure") cls then
          Except.ok () else (Except.error
            (PyExc.assertionError "Expected execution failure")
              : Except PyExc Unit)) = Except.ok ()
        rw [if_pos hinst]
  | error e =>
    constructor
    · intro h
      have h2 : (if instanceOf e cls then Except.ok ()
          else (Except.error e : Except PyExc Unit)) = Except.ok () := h
      refine Or.inl ⟨e, rfl, ?_⟩
      by_cases hinst : instanceOf e cls = true
      · exact hinst
      · rw [if_neg hinst] at h2
        exact Except.noConfusion h2
    · rintro (⟨err, herr, hinst⟩ | ⟨rs2, hrs, _⟩)
      · have heq : e = err := Except.error.inj herr
        subst heq
        show (if instanceOf e cls then Except.ok ()
            else (Except.error e : Except PyExc Unit)) = Except.ok ()
        rw [if_pos hinst]
      · exact Except.noConfusion hrs

theorem claim_C7_witness :
    DriverTestCase._run 1 idExec caseStr
        { test_name := "t", num_cases := 1, input_str := "1\nA\n\n",
          output_str := none,
          error_class := some ExcClass.assertionErrorCls }
      = Except.ok ()
    ↔ ((∃ err, Main.execute_all idExec (TestData.iter_cases
          { test_name := "t", num_cases := 1, input_str := "1\nA\n\n",
            output_str := none,
            error_class := some ExcClass.assertionErrorCls } 1)
            = Except.error err
          ∧ instanceOf err ExcClass.assertionErrorCls = true)
      ∨ (∃ rs, Main.execute_all idExec (TestData.iter_cases
          { test_name := "t", num_cases := 1, input_str := "1\nA\n\n",
            output_str := none,
            error_class := some ExcClass.assertionErrorCls } 1)
            = Except.ok rs
          ∧ instanceOf (PyExc.assertionError "Expected execution failure")
              ExcClass.assertionErrorCls = true)) :=
  claim_C7_amended 1 idExec caseStr "t" 1 "1\nA\n\n" none
    ExcClass.assertionErrorCls
